import Mathlib

/-!
Shallow embedding of the song-of-the-day selection and daily-trigger engine
from `discord_bot/song_of_day_test.py` (the file whose selection section is
marked AUTHORITATIVE in the source).

Modelling conventions:
- ISO dates are modelled as natural numbers ordered like the dates they
  denote; canonical `YYYY-MM-DD` strings compare lexicographically exactly
  as the dates they parse to, so `sorted(valid_dates)[0]` is the least due
  date and is modelled with `List.min?`.
- Python `set` values are modelled as `List String` with set-style
  insertion (`List.insert` adds the element only when absent, like
  `set.add`); `set.clear()` is the empty list.
- Python `dict` values (the scheduled-overrides map and the channel
  config) are association lists; dict keys are unique in Python, and the
  operations used (`pop`, lookup, item assignment) are modelled on the
  first matching key.
- `random.choice(eligible)` is modelled by an injected natural number `r`,
  reduced modulo the length of `eligible`; theorems quantify over all `r`.
- File I/O is made observable through an explicit event trace so that
  ordering and frame properties (which table was read or written, when
  sends happen) can be stated.
-/

/-- A Spotify track as used by the bot: `pick_song` reads `t["id"]`, and the
announcement embed reads name, artists, album art and the external url. -/
structure Track where
  id : String
  name : String
  artists : List String
  albumArt : String
  url : String
deriving DecidableEq, Repr

/-- Observable I/O events of one run: loads/saves of the persisted tables and
announcement sends to a channel id. -/
inductive Event where
  | loadChannelConfig
  | loadUsed
  | loadScheduled
  | saveUsed
  | saveScheduled
  | loadLastRun
  | saveLastRun
  | send (channelId : Nat)
deriving DecidableEq, Repr

/-- Is this event an announcement dispatch (`channel.send`)? -/
def Event.isSend : Event → Bool
  | .send _ => true
  | _ => false

/-- Is this event a write of a persisted state table? -/
def Event.isSave : Event → Bool
  | .saveUsed => true
  | .saveScheduled => true
  | .saveLastRun => true
  | _ => false

/-- The due override dates: `d for d in scheduled.keys() if date.fromisoformat(d) <= today`. -/
def dueDates (sched : List (Nat × String)) (today : Nat) : List Nat :=
  (sched.map Prod.fst).filter (fun d => d ≤ today)

/-- The value `scheduled.pop(chosen_date)` returns; at the call site
`chosen_date` is always a key of the map, so the default is never hit. -/
def lookupSched (sched : List (Nat × String)) (k : Nat) : String :=
  ((sched.find? (fun p => p.1 == k)).map Prod.snd).getD ""

/-- `lookup = {t["id"]: t for t in tracks}` followed by `lookup.get(track_id)`:
a dict comprehension lets later tracks overwrite earlier ones with the same
id, so the lookup yields the last matching track. -/
def lookupTrack (tracks : List Track) (i : String) : Option Track :=
  tracks.foldl (fun acc t => if t.id == i then some t else acc) none

/-- `random.choice(l)` with the randomness injected as `r`; `none` only when
`l` is empty, which never happens at the call site. -/
def chooseAt (l : List Track) (r : Nat) : Option Track :=
  l[r % l.length]?

/-- `pick_song()` from `song_of_day_test.py` (lines 151-184), with the catalog
fetch, the loaded state and the randomness passed in explicitly. Returns the
chosen track (or none), the new used-set, the new override map, and the event
trace. -/
def pick_song (tracks : List Track) (used : List String)
    (sched : List (Nat × String)) (today : Nat) (r : Nat) :
    Option Track × List String × List (Nat × String) × List Event :=
  if tracks = [] then
    -- `if not tracks: return None` happens before any state is loaded
    (none, used, sched, [])
  else
    let ev0 := [Event.loadUsed, Event.loadScheduled]
    match (dueDates sched today).min? with
    | some chosenDate =>
        -- earliest due date: `sorted(valid_dates)[0]`
        let trackId := lookupSched sched chosenDate
        let sched' := sched.eraseP (fun p => p.1 == chosenDate)
        -- `save_scheduled_songs(scheduled)` happens before the lookup result
        -- is inspected; the override slot is consumed either way
        match lookupTrack tracks trackId with
        | some song =>
            (some song, used.insert song.id, sched',
              ev0 ++ [Event.saveScheduled, Event.saveUsed])
        | none =>
            (none, used, sched', ev0 ++ [Event.saveScheduled])
    | none =>
        let unused := tracks.filter (fun t => t.id ∉ used)
        -- `if not unused: used.clear(); unused = tracks`
        let used0 := if unused = [] then [] else used
        let eligible := if unused = [] then tracks else unused
        match chooseAt eligible r with
        | some song =>
            (some song, used0.insert song.id, sched, ev0 ++ [Event.saveUsed])
        | none =>
            -- unreachable: eligible is non-empty whenever tracks is non-empty
            (none, used0, sched, ev0)

/-- The persisted and in-memory state the bot reads and writes. -/
structure BotState where
  channelConfig : List (String × Nat)
  used : List String
  scheduled : List (Nat × String)
  lastRun : Option Nat
deriving Repr

/-- `song_of_the_day()` from `song_of_day_test.py` (lines 190-218): load the
channel config, pick a song, then send the announcement to every configured
channel that resolves. `resolve` models `client.get_channel` succeeding. -/
def song_of_the_day (st : BotState) (tracks : List Track) (today : Nat)
    (r : Nat) (resolve : Nat → Bool) : Bool × BotState × List Event :=
  if st.channelConfig = [] then
    (false, st, [Event.loadChannelConfig])
  else
    let p := pick_song tracks st.used st.scheduled today r
    let st' : BotState := { st with used := p.2.1, scheduled := p.2.2.1 }
    match p.1 with
    | none => (false, st', Event.loadChannelConfig :: p.2.2.2)
    | some _ =>
        let sends := (st.channelConfig.map Prod.snd).filterMap
          (fun cid => if resolve cid then some (Event.send cid) else none)
        (true, st', Event.loadChannelConfig :: p.2.2.2 ++ sends)

/-- The `/test_sotd` force-fire command: after the permission check it runs
exactly `song_of_the_day()`, with no window check and no last-run access. -/
def test_sotd (authorized : Bool) (st : BotState) (tracks : List Track)
    (today : Nat) (r : Nat) (resolve : Nat → Bool) :
    Bool × BotState × List Event :=
  if authorized then song_of_the_day st tracks today r resolve
  else (false, st, [])

def POST_HOUR : Nat := 11

def POST_MINUTE : Nat := 30

/-- A poll-tick wall-clock reading: the calendar day plus hour/minute/second. -/
structure Clock where
  day : Nat
  hour : Nat
  minute : Nat
  second : Nat
deriving DecidableEq, Repr

/-- The trigger window of the scheduler in `song_of_day_test.py`:
`now.hour == POST_HOUR and now.minute == POST_MINUTE and now.second < 10`. -/
def inWindow (c : Clock) : Prop :=
  c.hour = POST_HOUR ∧ c.minute = POST_MINUTE ∧ c.second < 10

instance (c : Clock) : Decidable (inWindow c) := by
  unfold inWindow; infer_instance

/-- One iteration of the `@tasks.loop(seconds=10)` scheduler (lines 224-237):
fire `song_of_the_day` and save today as the last-run date when the clock is
in the window and the persisted last-run date differs from today. -/
def scheduler_tick (st : BotState) (now : Clock) (tracks : List Track)
    (r : Nat) (resolve : Nat → Bool) : BotState × Bool × List Event :=
  if inWindow now ∧ st.lastRun ≠ some now.day then
    let s := song_of_the_day st tracks now.day r resolve
    ({ s.2.1 with lastRun := some now.day }, true,
      Event.loadLastRun :: s.2.2 ++ [Event.saveLastRun])
  else
    (st, false, [Event.loadLastRun])

/-- The per-tick inputs of one scheduler iteration: the wall clock, the
catalog fetched on that tick, the randomness, and channel resolution. -/
structure TickIn where
  now : Clock
  tracks : List Track
  r : Nat
  resolve : Nat → Bool

/-- Run the scheduler loop over a list of poll ticks, counting firings. -/
def scheduler_run (st : BotState) : List TickIn → BotState × Nat
  | [] => (st, 0)
  | i :: rest =>
      let s := scheduler_tick st i.now i.tracks i.r i.resolve
      let k := scheduler_run s.1 rest
      (k.1, (if s.2.1 then 1 else 0) + k.2)

/-- Iterate `pick_song` over a list of random seeds, collecting the outcomes
(used by the no-repeat invariant). -/
def run_picks (tracks : List Track) (today : Nat) :
    List String → List (Nat × String) → List Nat →
    List (Option Track) × List String × List (Nat × String)
  | used, sched, [] => ([], used, sched)
  | used, sched, r :: rs =>
      let p := pick_song tracks used sched today r
      let k := run_picks tracks today p.2.1 p.2.2.1 rs
      (p.1 :: k.1, k.2.1, k.2.2)

/-- The possible contents of one persisted state file: absent, present but
not parseable, or present with parsed data of the table's type. -/
inductive FileState (α : Type) where
  | absent
  | invalid
  | valid (data : α)
deriving DecidableEq, Repr

/-- `load_json(path, default)` from `song_of_day_test.py` (lines 67-74):
return the parsed data when the file exists and parses; on a parse error the
exception is swallowed (`except json.JSONDecodeError: pass`) and the default
is returned; when the file is absent the default is returned. Nothing is ever
written, so the file state comes back unchanged. -/
def load_json {α : Type} (file : FileState α) (default : α) :
    α × FileState α :=
  match file with
  | .absent => (default, file)
  | .invalid => (default, file)
  | .valid v => (v, file)

/-- `load_used_songs()`: `set(load_json(USED_SONGS_FILE, []))`. -/
def load_used_songs (f : FileState (List String)) :
    List String × FileState (List String) :=
  load_json f []

/-- `load_channel_config()`: `load_json(CHANNEL_CONFIG_FILE, {})`. -/
def load_channel_config (f : FileState (List (String × Nat))) :
    List (String × Nat) × FileState (List (String × Nat)) :=
  load_json f []

/-- `load_scheduled_songs()`: `load_json(SCHEDULED_SONGS_FILE, {})`. -/
def load_scheduled_songs (f : FileState (List (Nat × String))) :
    List (Nat × String) × FileState (List (Nat × String)) :=
  load_json f []

/-- `load_last_run()` from `song_of_day_test.py` (lines 92-96): absent file
yields no date; a present file is fed to `date.fromisoformat`, which raises
`ValueError` on unparseable content — there is no handler, so the error
propagates to the caller. -/
def load_last_run (f : FileState Nat) : Except String (Option Nat) :=
  match f with
  | .absent => .ok none
  | .invalid => .error "ValueError"
  | .valid d => .ok (some d)

/-- Python `s.split(sep)` for a non-empty separator `c0 :: sep`, on character
lists: scan left to right, cutting at each non-overlapping occurrence. The
`fuel` argument only bounds the recursion (each step consumes at least one
character, so `s.length + 1` is always enough) and keeps the function
structurally recursive. -/
def splitOn1 (c0 : Char) (sep : List Char) : Nat → List Char → List (List Char)
  | 0, _ => [[]]
  | _ + 1, [] => [[]]
  | fuel + 1, c :: rest =>
      if (c0 :: sep).isPrefixOf (c :: rest) then
        [] :: splitOn1 c0 sep fuel (rest.drop sep.length)
      else
        match splitOn1 c0 sep fuel rest with
        | [] => [[c]]
        | h :: t => (c :: h) :: t

/-- Python `s.split(sep)` (separator non-empty at every use site). -/
def pySplit (sep : List Char) (s : List Char) : List (List Char) :=
  match sep with
  | [] => [s]
  | c :: cs => splitOn1 c cs (s.length + 1) s

/-- Python `"/track/" in spotify_url`. -/
def url_has_track (url : List Char) : Bool :=
  2 ≤ (pySplit "/track/".toList url).length

/-- `spotify_url.split("/track/")[1].split("?")[0]` from `schedule_song`. -/
def extract_track_id (url : List Char) : List Char :=
  (pySplit ['?'] ((pySplit "/track/".toList url).getD 1 [])).getD 0 []

/-- Everything after the first occurrence of `c0 :: sep` (empty when the
separator does not occur); used only to state what the spec claims. -/
def dropThroughFirst (c0 : Char) (sep : List Char) : List Char → List Char
  | [] => []
  | c :: rest =>
      if (c0 :: sep).isPrefixOf (c :: rest) then rest.drop sep.length
      else dropThroughFirst c0 sep rest

/-- Modelled from the claim's words, for comparison with the source: the
substring of the url between the first `"/track/"` and the next `'?'`
(to the end when there is no `'?'`). -/
def claimed_track_id (url : List Char) : List Char :=
  (dropThroughFirst '/' "track/".toList url).takeWhile (fun c => c ≠ '?')

/-- Python dict item assignment `m[k] = v`: update the value in place when
the key is present, otherwise append the new pair. -/
def dictSet (m : List (Nat × String)) (k : Nat) (v : String) :
    List (Nat × String) :=
  if (m.find? (fun p => p.1 == k)).isSome then
    m.map (fun p => if p.1 == k then (k, v) else p)
  else
    m ++ [(k, v)]

/-- Dict lookup on the override map (first matching key). -/
def lookupKey (m : List (Nat × String)) (k : Nat) : Option String :=
  (m.find? (fun p => p.1 == k)).map Prod.snd

/-- The user-visible outcome of the `/schedule_song` command. -/
inductive CmdResult where
  | denied
  | badDate
  | badUrl
  | scheduled
deriving DecidableEq, Repr

/-- `schedule_song` from `song_of_day_test.py` (lines 275-296): permission
check, `date.fromisoformat(date_str)` (its outcome is passed in as
`dateParse`), the `"/track/" in spotify_url` check, then extract the id and
assign it into the scheduled map. -/
def schedule_song (authorized : Bool) (dateParse : Option Nat)
    (url : List Char) (sched : List (Nat × String)) :
    CmdResult × List (Nat × String) :=
  if authorized then
    match dateParse with
    | none => (.badDate, sched)
    | some target =>
        if url_has_track url then
          (.scheduled, dictSet sched target (String.mk (extract_track_id url)))
        else
          (.badUrl, sched)
  else
    (.denied, sched)

/-! ## Helper lemmas -/

theorem lookupTrack_foldl_id (i : String) :
    ∀ (l : List Track) (acc : Option Track),
      (∀ t, acc = some t → t.id = i) →
      ∀ t, l.foldl (fun a u => if u.id == i then some u else a) acc = some t →
        t.id = i := by
  intro l
  induction l with
  | nil => exact fun acc h t ht => h t ht
  | cons x xs ih =>
      intro acc h t ht
      simp only [List.foldl_cons] at ht
      refine ih _ ?_ t ht
      intro u hu
      by_cases hx : (x.id == i) = true
      · rw [if_pos hx] at hu
        cases hu
        exact eq_of_beq hx
      · rw [if_neg hx] at hu
        exact h u hu

theorem lookupTrack_id {tracks : List Track} {i : String} {t : Track}
    (h : lookupTrack tracks i = some t) : t.id = i :=
  lookupTrack_foldl_id i tracks none (by intro u hu; cases hu) t h

theorem lookupTrack_foldl_mem (i : String) :
    ∀ (l : List Track) (acc : Option Track) (t : Track),
      l.foldl (fun a u => if u.id == i then some u else a) acc = some t →
      t ∈ l ∨ acc = some t := by
  intro l
  induction l with
  | nil => exact fun acc t ht => Or.inr ht
  | cons x xs ih =>
      intro acc t ht
      simp only [List.foldl_cons] at ht
      rcases ih _ t ht with hmem | hacc
      · exact Or.inl (List.mem_cons_of_mem _ hmem)
      · by_cases hx : (x.id == i) = true
        · rw [if_pos hx] at hacc
          cases hacc
          exact Or.inl (List.mem_cons_self x xs)
        · rw [if_neg hx] at hacc
          exact Or.inr hacc

theorem lookupTrack_mem {tracks : List Track} {i : String} {t : Track}
    (h : lookupTrack tracks i = some t) : t ∈ tracks := by
  rcases lookupTrack_foldl_mem i tracks none t h with hmem | hacc
  · exact hmem
  · cases hacc

/-- Branch equation: when the catalog is non-empty and some override is due,
`pick_song` runs the override branch on the earliest due date. -/
theorem pick_song_min_some_eq (tracks : List Track) (used : List String)
    (sched : List (Nat × String)) (today r dmin : Nat)
    (hne : tracks ≠ [])
    (hmin : (dueDates sched today).min? = some dmin) :
    pick_song tracks used sched today r =
      match lookupTrack tracks (lookupSched sched dmin) with
      | some song =>
          (some song, used.insert song.id,
            sched.eraseP (fun p => p.1 == dmin),
            [Event.loadUsed, Event.loadScheduled,
              Event.saveScheduled, Event.saveUsed])
      | none =>
          (none, used, sched.eraseP (fun p => p.1 == dmin),
            [Event.loadUsed, Event.loadScheduled, Event.saveScheduled]) := by
  unfold pick_song
  rw [if_neg hne, hmin]
  rfl

/-- Branch equation: when the catalog is non-empty and no override is due,
`pick_song` runs the random branch. -/
theorem pick_song_min_none_eq (tracks : List Track) (used : List String)
    (sched : List (Nat × String)) (today r : Nat)
    (hne : tracks ≠ [])
    (hnone : (dueDates sched today).min? = none) :
    pick_song tracks used sched today r =
      (let unused := tracks.filter (fun t => t.id ∉ used)
       let used0 := if unused = [] then [] else used
       let eligible := if unused = [] then tracks else unused
       match chooseAt eligible r with
       | some song =>
           (some song, used0.insert song.id, sched,
             [Event.loadUsed, Event.loadScheduled, Event.saveUsed])
       | none =>
           (none, used0, sched, [Event.loadUsed, Event.loadScheduled])) := by
  unfold pick_song
  rw [if_neg hne, hnone]
  rfl

/-! ## Claim C7 -/

/-- C7: selection against an empty catalog returns none and leaves the
used-set and the override map unchanged; the empty event trace shows that
nothing is loaded or persisted. -/
theorem pick_song_empty_catalog (used : List String)
    (sched : List (Nat × String)) (today r : Nat) :
    pick_song [] used sched today r = (none, used, sched, []) := rfl

/-! ## Claim C1 -/

/-- C1 counterexample: with an empty catalog, a due override (date 0 is due
on day 0, so the due subset is non-empty) is NOT consumed — `pick_song`
returns before touching the override map, so the claim quantified over
every catalog fails at this input. -/
theorem pick_song_empty_catalog_keeps_override :
    (dueDates [(0, "a")] 0).min? = some 0 ∧
    pick_song [] [] [(0, "a")] 0 0 = (none, [], [(0, "a")], []) :=
  ⟨rfl, rfl⟩

/-- C1 (amended: restricted to a non-empty catalog): when some override is
due, selection consumes exactly the entry with the earliest due date — that
entry is removed, every other entry survives, and when its track id resolves
in the catalog that track is returned (whatever the used-set holds) and its
id is added to the used-set. -/
theorem pick_song_consumes_earliest_override
    (tracks : List Track) (used : List String) (sched : List (Nat × String))
    (today r dmin : Nat)
    (hne : tracks ≠ [])
    (hmin : (dueDates sched today).min? = some dmin) :
    (pick_song tracks used sched today r).2.2.1 =
        sched.eraseP (fun q => q.1 == dmin) ∧
    (∀ q ∈ sched, q.1 ≠ dmin →
        q ∈ (pick_song tracks used sched today r).2.2.1) ∧
    (∀ t, lookupTrack tracks (lookupSched sched dmin) = some t →
        (pick_song tracks used sched today r).1 = some t ∧
        t.id = lookupSched sched dmin ∧
        (pick_song tracks used sched today r).2.1 = used.insert t.id) := by
  rw [pick_song_min_some_eq tracks used sched today r dmin hne hmin]
  cases hl : lookupTrack tracks (lookupSched sched dmin) with
  | none =>
      refine ⟨rfl, ?_, ?_⟩
      · intro q hq hqne
        exact (List.mem_eraseP_of_neg (by simpa using hqne)).2 hq
      · intro t ht
        cases ht
  | some s =>
      refine ⟨rfl, ?_, ?_⟩
      · intro q hq hqne
        exact (List.mem_eraseP_of_neg (by simpa using hqne)).2 hq
      · intro t ht
        cases ht
        exact ⟨rfl, lookupTrack_id hl, rfl⟩

/-- Witness for the amended C1 at a concrete input: catalog with one track
of id "a", an override for day 2 which is due on day 5, used-set ["x"]. -/
theorem pick_song_consumes_earliest_override_witness :
    (([⟨"a", "A", [], "", ""⟩] : List Track) ≠ [] ∧
      (dueDates [(2, "a"), (7, "b")] 5).min? = some 2) ∧
    ((pick_song [⟨"a", "A", [], "", ""⟩] ["x"] [(2, "a"), (7, "b")] 5 0).2.2.1 =
        List.eraseP (fun q => q.1 == 2) [(2, "a"), (7, "b")] ∧
      (∀ q ∈ [(2, "a"), (7, "b")], q.1 ≠ 2 →
        q ∈ (pick_song [⟨"a", "A", [], "", ""⟩] ["x"] [(2, "a"), (7, "b")] 5 0).2.2.1) ∧
      (∀ t, lookupTrack [⟨"a", "A", [], "", ""⟩] (lookupSched [(2, "a"), (7, "b")] 2) = some t →
        (pick_song [⟨"a", "A", [], "", ""⟩] ["x"] [(2, "a"), (7, "b")] 5 0).1 = some t ∧
        t.id = lookupSched [(2, "a"), (7, "b")] 2 ∧
        (pick_song [⟨"a", "A", [], "", ""⟩] ["x"] [(2, "a"), (7, "b")] 5 0).2.1 =
          List.insert t.id ["x"])) :=
  ⟨⟨by decide, by decide⟩,
    pick_song_consumes_earliest_override
      [⟨"a", "A", [], "", ""⟩] ["x"] [(2, "a"), (7, "b")] 5 0 2
      (by decide) (by decide)⟩

/-! ## Claim C2 -/

/-- C2: a due override whose track id no longer resolves in the (non-empty)
catalog is still consumed — the entry with the earliest due date is removed —
but no track is returned (no fallback to random selection) and the used-set
is untouched; the trace shows the override map is saved and the used-set is
not. -/
theorem pick_song_dangling_override
    (tracks : List Track) (used : List String) (sched : List (Nat × String))
    (today r dmin : Nat)
    (hne : tracks ≠ [])
    (hmin : (dueDates sched today).min? = some dmin)
    (hdangling : lookupTrack tracks (lookupSched sched dmin) = none) :
    pick_song tracks used sched today r =
      (none, used, sched.eraseP (fun q => q.1 == dmin),
        [Event.loadUsed, Event.loadScheduled, Event.saveScheduled]) := by
  rw [pick_song_min_some_eq tracks used sched today r dmin hne hmin, hdangling]

/-- Witness for C2: one-track catalog with id "a", the earliest due override
(day 2, due on day 5) names the vanished id "zz". -/
theorem pick_song_dangling_override_witness :
    (([⟨"a", "A", [], "", ""⟩] : List Track) ≠ [] ∧
      (dueDates [(2, "zz"), (3, "a")] 5).min? = some 2 ∧
      lookupTrack [⟨"a", "A", [], "", ""⟩] (lookupSched [(2, "zz"), (3, "a")] 2) = none) ∧
    pick_song [⟨"a", "A", [], "", ""⟩] ["x"] [(2, "zz"), (3, "a")] 5 0 =
      (none, ["x"], List.eraseP (fun q => q.1 == 2) [(2, "zz"), (3, "a")],
        [Event.loadUsed, Event.loadScheduled, Event.saveScheduled]) :=
  ⟨⟨by decide, by decide, by decide⟩,
    pick_song_dangling_override [⟨"a", "A", [], "", ""⟩] ["x"]
      [(2, "zz"), (3, "a")] 5 0 2 (by decide) (by decide) (by decide)⟩

/-! ## Claim C3 -/

/-- C3: with a non-empty catalog, no due override, and every catalog id
already used, the random-path selection still returns a track: the used-set
is reset, the choice ranges over the full catalog, and the used-set
afterwards is exactly the singleton of the chosen id. -/
theorem pick_song_wraparound
    (tracks : List Track) (used : List String) (sched : List (Nat × String))
    (today r : Nat)
    (hne : tracks ≠ [])
    (hnodue : (dueDates sched today).min? = none)
    (hall : ∀ t ∈ tracks, t.id ∈ used) :
    ∃ t, t ∈ tracks ∧
      pick_song tracks used sched today r =
        (some t, [t.id], sched,
          [Event.loadUsed, Event.loadScheduled, Event.saveUsed]) := by
  rw [pick_song_min_none_eq tracks used sched today r hne hnodue]
  have hunused : tracks.filter (fun t => t.id ∉ used) = [] := by
    rw [List.filter_eq_nil_iff]
    intro t ht
    simp [hall t ht]
  have hlen : 0 < tracks.length := List.length_pos_of_ne_nil hne
  have hidx : r % tracks.length < tracks.length := Nat.mod_lt r hlen
  refine ⟨tracks[r % tracks.length], List.getElem_mem hidx, ?_⟩
  simp only [hunused, if_true, chooseAt, List.getElem?_eq_getElem hidx]
  rfl

/-- Witness for C3: a two-track catalog, both ids already used; the pick
with seed 1 returns the second track and the used-set resets to just its id. -/
theorem pick_song_wraparound_witness :
    (([⟨"a", "A", [], "", ""⟩, ⟨"b", "B", [], "", ""⟩] : List Track) ≠ [] ∧
      (dueDates [(9, "a")] 5).min? = none ∧
      (∀ t ∈ ([⟨"a", "A", [], "", ""⟩, ⟨"b", "B", [], "", ""⟩] : List Track),
        t.id ∈ ["a", "b"])) ∧
    (∃ t, t ∈ ([⟨"a", "A", [], "", ""⟩, ⟨"b", "B", [], "", ""⟩] : List Track) ∧
      pick_song [⟨"a", "A", [], "", ""⟩, ⟨"b", "B", [], "", ""⟩]
          ["a", "b"] [(9, "a")] 5 1 =
        (some t, [t.id], [(9, "a")],
          [Event.loadUsed, Event.loadScheduled, Event.saveUsed])) :=
  ⟨⟨by decide, by decide, by decide⟩,
    pick_song_wraparound [⟨"a", "A", [], "", ""⟩, ⟨"b", "B", [], "", ""⟩]
      ["a", "b"] [(9, "a")] 5 1 (by decide) (by decide) (by decide)⟩

/-! ## Claim C4 -/

/-- Counting: with pairwise-distinct catalog ids, a used-set smaller than the
catalog cannot cover every track's id. -/
theorem exists_unused_track (tracks : List Track) (used : List String)
    (hids : (tracks.map Track.id).Nodup)
    (hlt : used.length < tracks.length) :
    ∃ t ∈ tracks, t.id ∉ used := by
  by_contra hno
  push_neg at hno
  have hsub : (tracks.map Track.id).toFinset ⊆ used.toFinset := by
    intro i hi
    rw [List.mem_toFinset] at hi ⊢
    rcases List.mem_map.1 hi with ⟨t, ht, rfl⟩
    exact hno t ht
  have h1 : (tracks.map Track.id).toFinset.card = tracks.length := by
    rw [List.toFinset_card_of_nodup hids, List.length_map]
  have h2 : used.toFinset.card ≤ used.length := List.toFinset_card_le used
  have := Finset.card_le_card hsub
  omega

/-- One random-path step: when no override is due and some track is still
unused, `pick_song` chooses an unused track and conses its id onto the
used-set. -/
theorem pick_song_random_step (tracks : List Track) (used : List String)
    (sched : List (Nat × String)) (today r : Nat)
    (hnodue : (dueDates sched today).min? = none)
    (hnotfull : ∃ t ∈ tracks, t.id ∉ used) :
    ∃ t, t ∈ tracks ∧ t.id ∉ used ∧
      pick_song tracks used sched today r =
        (some t, t.id :: used, sched,
          [Event.loadUsed, Event.loadScheduled, Event.saveUsed]) := by
  rcases hnotfull with ⟨u, hu, huid⟩
  have hne : tracks ≠ [] := List.ne_nil_of_mem hu
  have humem : u ∈ tracks.filter (fun t => t.id ∉ used) := by
    simp only [List.mem_filter, decide_eq_true_eq]
    exact ⟨hu, huid⟩
  have hunused : tracks.filter (fun t => t.id ∉ used) ≠ [] :=
    List.ne_nil_of_mem humem
  rw [pick_song_min_none_eq tracks used sched today r hne hnodue]
  simp only [if_neg hunused]
  have hlen : 0 < (tracks.filter (fun t => t.id ∉ used)).length :=
    List.length_pos_of_ne_nil hunused
  have hidx : r % (tracks.filter (fun t => t.id ∉ used)).length <
      (tracks.filter (fun t => t.id ∉ used)).length := Nat.mod_lt r hlen
  set tr := (tracks.filter (fun t => t.id ∉ used))[r %
    (tracks.filter (fun t => t.id ∉ used)).length] with htr
  have htrmem : tr ∈ tracks.filter (fun t => t.id ∉ used) :=
    htr ▸ List.getElem_mem hidx
  have htrtracks : tr ∈ tracks := (List.mem_filter.1 htrmem).1
  have htrunused : tr.id ∉ used := by
    have := (List.mem_filter.1 htrmem).2
    simpa using this
  refine ⟨tr, htrtracks, htrunused, ?_⟩
  simp only [chooseAt, List.getElem?_eq_getElem hidx]
  rw [List.insert_of_not_mem htrunused]

/-- Invariant carried through a sequence of random-path picks: every pick
produces a track, and the produced ids avoid the incoming used-set and are
pairwise distinct. -/
theorem run_picks_invariant (tracks : List Track) (today : Nat)
    (hids : (tracks.map Track.id).Nodup) :
    ∀ (rs : List Nat) (used : List String) (sched : List (Nat × String)),
      (dueDates sched today).min? = none →
      used.length + rs.length ≤ tracks.length →
      (∀ o ∈ (run_picks tracks today used sched rs).1, o ≠ none) ∧
      (∀ i ∈ (run_picks tracks today used sched rs).1.filterMap
          (fun o => o.map Track.id), i ∉ used) ∧
      ((run_picks tracks today used sched rs).1.filterMap
          (fun o => o.map Track.id)).Nodup := by
  intro rs
  induction rs with
  | nil =>
      intro used sched _ _
      refine ⟨?_, ?_, ?_⟩
      · intro o ho
        simp [run_picks] at ho
      · intro i hi
        simp [run_picks] at hi
      · simp [run_picks]
  | cons r rs ih =>
      intro used sched hnodue hlen
      have hlt : used.length < tracks.length := by
        simp only [List.length_cons] at hlen
        omega
      obtain ⟨t, htmem, htunused, heq⟩ :=
        pick_song_random_step tracks used sched today r hnodue
          (exists_unused_track tracks used hids hlt)
      have hrun : run_picks tracks today used sched (r :: rs) =
          ((some t) :: (run_picks tracks today (t.id :: used) sched rs).1,
            (run_picks tracks today (t.id :: used) sched rs).2.1,
            (run_picks tracks today (t.id :: used) sched rs).2.2) := by
        simp only [run_picks, heq]
      have hlen' : (t.id :: used).length + rs.length ≤ tracks.length := by
        simp only [List.length_cons] at hlen ⊢
        omega
      obtain ⟨hall, havoid, hnodup⟩ := ih (t.id :: used) sched hnodue hlen'
      rw [hrun]
      refine ⟨?_, ?_, ?_⟩
      · intro o ho
        rcases List.mem_cons.1 ho with rfl | ho'
        · simp
        · exact hall o ho'
      · intro i hi
        simp only [List.filterMap_cons, Option.map_some'] at hi
        rcases List.mem_cons.1 hi with rfl | hi'
        · exact htunused
        · exact fun hmem => havoid i hi' (List.mem_cons_of_mem _ hmem)
      · simp only [List.filterMap_cons, Option.map_some']
        rw [List.nodup_cons]
        refine ⟨?_, hnodup⟩
        intro hmem
        exact havoid t.id hmem (List.mem_cons_self _ _)

/-- C4: starting from an empty used-set, any sequence of at most
catalog-many random-path selections (no due override) produces a track on
every step, and the chosen ids are pairwise distinct. -/
theorem run_picks_no_repeat (tracks : List Track) (today : Nat)
    (sched : List (Nat × String)) (rs : List Nat)
    (hids : (tracks.map Track.id).Nodup)
    (hnodue : (dueDates sched today).min? = none)
    (hlen : rs.length ≤ tracks.length) :
    (∀ o ∈ (run_picks tracks today [] sched rs).1, o ≠ none) ∧
    ((run_picks tracks today [] sched rs).1.filterMap
        (fun o => o.map Track.id)).Nodup := by
  obtain ⟨h1, _, h3⟩ := run_picks_invariant tracks today hids rs [] sched
    hnodue (by simpa using hlen)
  exact ⟨h1, h3⟩

/-- Witness for C4: three picks from a three-track catalog with an undue
override pending; every pick produces a track and the ids are distinct. -/
theorem run_picks_no_repeat_witness :
    ((([⟨"a", "A", [], "", ""⟩, ⟨"b", "B", [], "", ""⟩,
        ⟨"c", "C", [], "", ""⟩] : List Track).map Track.id).Nodup ∧
      (dueDates [(9, "a")] 5).min? = none ∧
      ([0, 0, 1] : List Nat).length ≤
        ([⟨"a", "A", [], "", ""⟩, ⟨"b", "B", [], "", ""⟩,
          ⟨"c", "C", [], "", ""⟩] : List Track).length) ∧
    ((∀ o ∈ (run_picks [⟨"a", "A", [], "", ""⟩, ⟨"b", "B", [], "", ""⟩,
        ⟨"c", "C", [], "", ""⟩] 5 [] [(9, "a")] [0, 0, 1]).1, o ≠ none) ∧
      ((run_picks [⟨"a", "A", [], "", ""⟩, ⟨"b", "B", [], "", ""⟩,
          ⟨"c", "C", [], "", ""⟩] 5 [] [(9, "a")] [0, 0, 1]).1.filterMap
        (fun o => o.map Track.id)).Nodup) :=
  ⟨⟨by decide, by decide, by decide⟩,
    run_picks_no_repeat
      [⟨"a", "A", [], "", ""⟩, ⟨"b", "B", [], "", ""⟩, ⟨"c", "C", [], "", ""⟩]
      5 [(9, "a")] [0, 0, 1] (by decide) (by decide) (by decide)⟩

/-! ## Claim C5 -/

theorem song_of_the_day_lastRun (st : BotState) (tracks : List Track)
    (today r : Nat) (resolve : Nat → Bool) :
    (song_of_the_day st tracks today r resolve).2.1.lastRun = st.lastRun := by
  by_cases h : st.channelConfig = []
  · simp only [song_of_the_day, if_pos h]
  · rcases hp : pick_song tracks st.used st.scheduled today r with ⟨song, u, sc, ev⟩
    simp only [song_of_the_day, if_neg h, hp]
    cases song <;> rfl

theorem scheduler_tick_no_fire_fired (st : BotState) (now : Clock)
    (tracks : List Track) (r : Nat) (resolve : Nat → Bool)
    (h : st.lastRun = some now.day) :
    scheduler_tick st now tracks r resolve = (st, false, [Event.loadLastRun]) := by
  unfold scheduler_tick
  rw [if_neg]
  rintro ⟨_, hne⟩
  exact hne h

theorem scheduler_tick_no_fire_out_of_window (st : BotState) (now : Clock)
    (tracks : List Track) (r : Nat) (resolve : Nat → Bool)
    (h : ¬inWindow now) :
    scheduler_tick st now tracks r resolve = (st, false, [Event.loadLastRun]) := by
  unfold scheduler_tick
  rw [if_neg]
  rintro ⟨hw, _⟩
  exact h hw

theorem scheduler_tick_fires (st : BotState) (now : Clock)
    (tracks : List Track) (r : Nat) (resolve : Nat → Bool)
    (hw : inWindow now) (hne : st.lastRun ≠ some now.day) :
    (scheduler_tick st now tracks r resolve).1.lastRun = some now.day ∧
    (scheduler_tick st now tracks r resolve).2.1 = true := by
  unfold scheduler_tick
  rw [if_pos ⟨hw, hne⟩]
  exact ⟨rfl, rfl⟩

/-- After the day's firing, every further same-day tick is a no-op. -/
theorem scheduler_run_already_fired (d : Nat) :
    ∀ (ticks : List TickIn) (st : BotState),
      (∀ i ∈ ticks, i.now.day = d) →
      st.lastRun = some d →
      scheduler_run st ticks = (st, 0) := by
  intro ticks
  induction ticks with
  | nil => intro st _ _; rfl
  | cons i ticks ih =>
      intro st hday hlast
      have hfirst : scheduler_tick st i.now i.tracks i.r i.resolve =
          (st, false, [Event.loadLastRun]) :=
        scheduler_tick_no_fire_fired st i.now i.tracks i.r i.resolve
          (by rw [hlast, hday i (List.mem_cons_self _ _)])
      simp only [scheduler_run, hfirst]
      rw [ih st (fun j hj => hday j (List.mem_cons_of_mem _ hj)) hlast]
      rfl

/-- C5: over any run of same-day poll ticks, a persisted last-fired-date
equal to that day suppresses every firing; otherwise, as soon as some tick
falls in the configured window, exactly one firing happens over the whole
day and the last-fired-date ends up recorded as that day — whatever the
catalog, destination set or channel resolution did during the firing. -/
theorem scheduler_once_per_day (d : Nat) (ticks : List TickIn) (st : BotState)
    (hday : ∀ i ∈ ticks, i.now.day = d) :
    (st.lastRun = some d → (scheduler_run st ticks).2 = 0) ∧
    (st.lastRun ≠ some d → (∃ i ∈ ticks, inWindow i.now) →
      (scheduler_run st ticks).2 = 1 ∧
      (scheduler_run st ticks).1.lastRun = some d) := by
  constructor
  · intro hlast
    rw [scheduler_run_already_fired d ticks st hday hlast]
  · induction ticks generalizing st with
    | nil =>
        intro _ hex
        rcases hex with ⟨i, hi, _⟩
        cases hi
    | cons i ticks ih =>
        intro hlast hex
        have hdayi : i.now.day = d := hday i (List.mem_cons_self _ _)
        by_cases hw : inWindow i.now
        · have hne : st.lastRun ≠ some i.now.day := by rw [hdayi]; exact hlast
          have hfired := scheduler_tick_fires st i.now i.tracks i.r i.resolve hw hne
          have hrest := scheduler_run_already_fired d ticks
            (scheduler_tick st i.now i.tracks i.r i.resolve).1
            (fun j hj => hday j (List.mem_cons_of_mem _ hj))
            (by rw [hfired.1, hdayi])
          simp only [scheduler_run, hrest, hfired.2]
          refine ⟨rfl, ?_⟩
          rw [hfired.1, hdayi]
        · have hfirst : scheduler_tick st i.now i.tracks i.r i.resolve =
              (st, false, [Event.loadLastRun]) :=
            scheduler_tick_no_fire_out_of_window st i.now i.tracks i.r i.resolve hw
          have hex' : ∃ j ∈ ticks, inWindow j.now := by
            rcases hex with ⟨j, hj, hjw⟩
            rcases List.mem_cons.1 hj with rfl | hj'
            · exact absurd hjw hw
            · exact ⟨j, hj', hjw⟩
          have := ih st (fun j hj => hday j (List.mem_cons_of_mem _ hj)) hlast hex'
          simp only [scheduler_run, hfirst]
          exact ⟨by rw [this.1]; rfl, this.2⟩


/-- Witness for C5 at a concrete run: one in-window tick on day 5 with an
empty catalog and no configured destinations, starting from last-run day 4:
the tick still counts as the day's single firing and records day 5. -/
theorem scheduler_once_per_day_witness :
    (∀ i ∈ [TickIn.mk ⟨5, 11, 30, 3⟩ [] 0 (fun _ => false)], i.now.day = 5) ∧
    ((((⟨[], [], [], some 4⟩ : BotState)).lastRun = some 5 →
        (scheduler_run ⟨[], [], [], some 4⟩
          [TickIn.mk ⟨5, 11, 30, 3⟩ [] 0 (fun _ => false)]).2 = 0) ∧
      (((⟨[], [], [], some 4⟩ : BotState)).lastRun ≠ some 5 →
        (∃ i ∈ [TickIn.mk ⟨5, 11, 30, 3⟩ [] 0 (fun _ => false)], inWindow i.now) →
        (scheduler_run ⟨[], [], [], some 4⟩
          [TickIn.mk ⟨5, 11, 30, 3⟩ [] 0 (fun _ => false)]).2 = 1 ∧
        (scheduler_run ⟨[], [], [], some 4⟩
          [TickIn.mk ⟨5, 11, 30, 3⟩ [] 0 (fun _ => false)]).1.lastRun = some 5)) := by
  constructor
  · intro i hi
    rcases List.mem_cons.1 hi with rfl | h
    · rfl
    · cases h
  · exact scheduler_once_per_day 5 [TickIn.mk ⟨5, 11, 30, 3⟩ [] 0 (fun _ => false)]
      ⟨[], [], [], some 4⟩
      (by
        intro i hi
        rcases List.mem_cons.1 hi with rfl | h
        · rfl
        · cases h)

/-! ## Claims C8 and C9 -/

theorem pick_song_trace_subset (tracks : List Track) (used : List String)
    (sched : List (Nat × String)) (today r : Nat) :
    ∀ e ∈ (pick_song tracks used sched today r).2.2.2,
      e = Event.loadUsed ∨ e = Event.loadScheduled ∨
      e = Event.saveScheduled ∨ e = Event.saveUsed := by
  intro e he
  unfold pick_song at he
  split at he
  · cases he
  · split at he
    · dsimp only at he
      split at he <;>
      · simp only [List.mem_append, List.mem_cons, List.not_mem_nil,
          or_false] at he
        tauto
    · dsimp only at he
      split at he <;>
      · simp only [List.mem_append, List.mem_cons, List.not_mem_nil,
          or_false] at he
        tauto

theorem pick_song_no_send (tracks : List Track) (used : List String)
    (sched : List (Nat × String)) (today r : Nat) :
    ∀ e ∈ (pick_song tracks used sched today r).2.2.2, e.isSend = false := by
  intro e he
  rcases pick_song_trace_subset tracks used sched today r e he with
    rfl | rfl | rfl | rfl <;> rfl

/-- The trace of one `song_of_the_day` run is the selection part (which
contains no send) followed by the dispatch part (sends only). -/
theorem song_of_the_day_trace_split (st : BotState) (tracks : List Track)
    (today r : Nat) (resolve : Nat → Bool) :
    ∃ pre post, (song_of_the_day st tracks today r resolve).2.2 = pre ++ post ∧
      (∀ e ∈ pre, e.isSend = false) ∧ (∀ e ∈ post, e.isSend = true) := by
  by_cases h : st.channelConfig = []
  · refine ⟨[Event.loadChannelConfig], [], ?_, ?_, ?_⟩
    · simp [song_of_the_day, if_pos h]
    · intro e he
      rcases List.mem_cons.1 he with rfl | he'
      · rfl
      · cases he'
    · intro e he
      cases he
  · rcases hp : pick_song tracks st.used st.scheduled today r with ⟨song, u, sc, ev⟩
    have hev : ∀ e ∈ ev, e.isSend = false := by
      have := pick_song_no_send tracks st.used st.scheduled today r
      rw [hp] at this
      exact this
    have hpre : ∀ e ∈ Event.loadChannelConfig :: ev, e.isSend = false := by
      intro e he
      rcases List.mem_cons.1 he with rfl | he'
      · rfl
      · exact hev e he'
    cases song with
    | none =>
        refine ⟨Event.loadChannelConfig :: ev, [], ?_, hpre, ?_⟩
        · simp [song_of_the_day, if_neg h, hp]
        · intro e he
          cases he
    | some t =>
        refine ⟨Event.loadChannelConfig :: ev,
          (st.channelConfig.map Prod.snd).filterMap
            (fun cid => if resolve cid then some (Event.send cid) else none),
          ?_, hpre, ?_⟩
        · simp [song_of_the_day, if_neg h, hp]
        · intro e he
          rcases List.mem_filterMap.1 he with ⟨cid, _, hcid⟩
          by_cases hres : resolve cid
          · rw [if_pos hres] at hcid
            cases hcid
            rfl
          · rw [if_neg hres] at hcid
            cases hcid

theorem isSend_false_of_isSave {e : Event} (h : e.isSave = true) :
    e.isSend = false := by
  cases e <;> first | rfl | cases h

/-- C8: in every firing of the pipeline, each save of the used-set or
override map happens strictly before each announcement send: if position `i`
of the trace is a save and position `j` is a send, then `i < j`. -/
theorem song_of_the_day_saves_before_sends (st : BotState)
    (tracks : List Track) (today r : Nat) (resolve : Nat → Bool) (i j : Nat)
    (hi : i < (song_of_the_day st tracks today r resolve).2.2.length)
    (hj : j < (song_of_the_day st tracks today r resolve).2.2.length)
    (hsave : ((song_of_the_day st tracks today r resolve).2.2.get ⟨i, hi⟩).isSave = true)
    (hsend : ((song_of_the_day st tracks today r resolve).2.2.get ⟨j, hj⟩).isSend = true) :
    i < j := by
  obtain ⟨pre, post, hsplit, hpre, hpost⟩ :=
    song_of_the_day_trace_split st tracks today r resolve
  have hleni : i < (song_of_the_day st tracks today r resolve).2.2.length := hi
  have hilt : i < pre.length := by
    by_contra hge
    push_neg at hge
    have hgt : i - pre.length < post.length := by
      rw [hsplit, List.length_append] at hi
      omega
    have : (song_of_the_day st tracks today r resolve).2.2.get ⟨i, hi⟩ =
        post.get ⟨i - pre.length, hgt⟩ := by
      simp only [List.get_eq_getElem]
      rw [List.getElem_of_eq hsplit hi, List.getElem_append_right hge]
    rw [this] at hsave
    have := hpost _ (List.get_mem post (i - pre.length) hgt)
    rw [isSend_false_of_isSave hsave] at this
    cases this
  have hjge : pre.length ≤ j := by
    by_contra hlt
    push_neg at hlt
    have : (song_of_the_day st tracks today r resolve).2.2.get ⟨j, hj⟩ =
        pre.get ⟨j, hlt⟩ := by
      simp only [List.get_eq_getElem]
      rw [List.getElem_of_eq hsplit hj, List.getElem_append_left hlt]
    rw [this] at hsend
    have := hpre _ (List.get_mem pre j hlt)
    rw [hsend] at this
    cases this
  omega

/-- Witness for C8 at a concrete firing: one destination, one track; the
used-set save sits at trace position 3 and the send at position 4. -/
theorem song_of_the_day_saves_before_sends_witness :
    (3 < (song_of_the_day ⟨[("g", 7)], [], [], none⟩
        [⟨"a", "A", [], "", ""⟩] 0 0 (fun _ => true)).2.2.length ∧
      4 < (song_of_the_day ⟨[("g", 7)], [], [], none⟩
        [⟨"a", "A", [], "", ""⟩] 0 0 (fun _ => true)).2.2.length ∧
      ((song_of_the_day ⟨[("g", 7)], [], [], none⟩
        [⟨"a", "A", [], "", ""⟩] 0 0 (fun _ => true)).2.2.get
          ⟨3, by decide⟩).isSave = true ∧
      ((song_of_the_day ⟨[("g", 7)], [], [], none⟩
        [⟨"a", "A", [], "", ""⟩] 0 0 (fun _ => true)).2.2.get
          ⟨4, by decide⟩).isSend = true) ∧
    3 < 4 :=
  ⟨⟨by decide, by decide, by decide, by decide⟩,
    song_of_the_day_saves_before_sends ⟨[("g", 7)], [], [], none⟩
      [⟨"a", "A", [], "", ""⟩] 0 0 (fun _ => true) 3 4
      (by decide) (by decide) (by decide) (by decide)⟩

theorem song_of_the_day_no_lastRun_events (st : BotState)
    (tracks : List Track) (today r : Nat) (resolve : Nat → Bool) :
    ∀ e ∈ (song_of_the_day st tracks today r resolve).2.2,
      e ≠ Event.loadLastRun ∧ e ≠ Event.saveLastRun := by
  intro e he
  by_cases h : st.channelConfig = []
  · simp only [song_of_the_day, if_pos h] at he
    rcases List.mem_cons.1 he with rfl | he'
    · exact ⟨by simp, by simp⟩
    · cases he'
  · rcases hp : pick_song tracks st.used st.scheduled today r with ⟨song, u, sc, ev⟩
    have hev : ∀ x ∈ ev, x = Event.loadUsed ∨ x = Event.loadScheduled ∨
        x = Event.saveScheduled ∨ x = Event.saveUsed := by
      have := pick_song_trace_subset tracks st.used st.scheduled today r
      rw [hp] at this
      exact this
    have hsends : ∀ x ∈ (st.channelConfig.map Prod.snd).filterMap
        (fun cid => if resolve cid then some (Event.send cid) else none),
        ∃ c, x = Event.send c := by
      intro x hx
      rcases List.mem_filterMap.1 hx with ⟨cid, _, hcid⟩
      by_cases hres : resolve cid
      · rw [if_pos hres] at hcid
        cases hcid
        exact ⟨cid, rfl⟩
      · rw [if_neg hres] at hcid
        cases hcid
    cases song with
    | none =>
        simp only [song_of_the_day, if_neg h, hp] at he
        rcases List.mem_cons.1 he with rfl | he'
        · exact ⟨by simp, by simp⟩
        · rcases hev e he' with rfl | rfl | rfl | rfl <;> exact ⟨by simp, by simp⟩
    | some t =>
        simp only [song_of_the_day, if_neg h, hp] at he
        rcases List.mem_cons.1 he with rfl | he'
        · exact ⟨by simp, by simp⟩
        · rcases List.mem_append.1 he' with hin | hin
          · rcases hev e hin with rfl | rfl | rfl | rfl <;> exact ⟨by simp, by simp⟩
          · rcases hsends e hin with ⟨c, rfl⟩
            exact ⟨by simp, by simp⟩

/-- C9: the force-fire command (once authorized) runs exactly the
`song_of_the_day` pipeline with no window check; the persisted
last-fired-date is neither read nor written (no such event in the trace, and
the state field is unchanged), so an in-window daily-trigger tick later the
same day still fires. -/
theorem test_sotd_ignores_lastRun (st : BotState) (tracks : List Track)
    (today r : Nat) (resolve : Nat → Bool) (now : Clock)
    (laterTracks : List Track) (laterR : Nat) (laterResolve : Nat → Bool)
    (hw : inWindow now) (hlast : st.lastRun ≠ some now.day) :
    test_sotd true st tracks today r resolve =
      song_of_the_day st tracks today r resolve ∧
    (test_sotd true st tracks today r resolve).2.1.lastRun = st.lastRun ∧
    (∀ e ∈ (test_sotd true st tracks today r resolve).2.2,
      e ≠ Event.loadLastRun ∧ e ≠ Event.saveLastRun) ∧
    (scheduler_tick (test_sotd true st tracks today r resolve).2.1 now
      laterTracks laterR laterResolve).2.1 = true := by
  have hpipe : test_sotd true st tracks today r resolve =
      song_of_the_day st tracks today r resolve := rfl
  have hfr : (test_sotd true st tracks today r resolve).2.1.lastRun =
      st.lastRun := by
    rw [hpipe]
    exact song_of_the_day_lastRun st tracks today r resolve
  refine ⟨hpipe, hfr, ?_, ?_⟩
  · rw [hpipe]
    exact song_of_the_day_no_lastRun_events st tracks today r resolve
  · exact (scheduler_tick_fires _ now laterTracks laterR laterResolve hw
      (by rw [hfr]; exact hlast)).2

/-- Witness for C9: force-fire on day 3 from a fresh state, then an
in-window tick of day 3 still fires. -/
theorem test_sotd_ignores_lastRun_witness :
    (inWindow ⟨3, 11, 30, 0⟩ ∧
      (⟨[("g", 7)], [], [], none⟩ : BotState).lastRun ≠
        some (Clock.mk 3 11 30 0).day) ∧
    (test_sotd true ⟨[("g", 7)], [], [], none⟩ [⟨"a", "A", [], "", ""⟩] 0 0
        (fun _ => true) =
      song_of_the_day ⟨[("g", 7)], [], [], none⟩ [⟨"a", "A", [], "", ""⟩] 0 0
        (fun _ => true) ∧
      (test_sotd true ⟨[("g", 7)], [], [], none⟩ [⟨"a", "A", [], "", ""⟩] 0 0
        (fun _ => true)).2.1.lastRun =
        (⟨[("g", 7)], [], [], none⟩ : BotState).lastRun ∧
      (∀ e ∈ (test_sotd true ⟨[("g", 7)], [], [], none⟩
          [⟨"a", "A", [], "", ""⟩] 0 0 (fun _ => true)).2.2,
        e ≠ Event.loadLastRun ∧ e ≠ Event.saveLastRun) ∧
      (scheduler_tick (test_sotd true ⟨[("g", 7)], [], [], none⟩
          [⟨"a", "A", [], "", ""⟩] 0 0 (fun _ => true)).2.1 ⟨3, 11, 30, 0⟩
        [] 0 (fun _ => false)).2.1 = true) :=
  ⟨⟨by decide, by decide⟩,
    test_sotd_ignores_lastRun ⟨[("g", 7)], [], [], none⟩
      [⟨"a", "A", [], "", ""⟩] 0 0 (fun _ => true) ⟨3, 11, 30, 0⟩
      [] 0 (fun _ => false) (by decide) (by decide)⟩

/-! ## Claim C6 -/

/-- C6 counterexample: the claim fails at the concrete input "file present
with unparseable content". For the last-fired-date table the load raises
(`date.fromisoformat` has no error handler), and for the used-songs table
the empty default is not persisted: after the load the file still holds the
invalid content rather than a valid empty table. -/
theorem load_corrupt_counterexample :
    load_last_run FileState.invalid = Except.error "ValueError" ∧
    (load_used_songs FileState.invalid).2 = FileState.invalid ∧
    (load_used_songs FileState.invalid).2 ≠ FileState.valid [] :=
  ⟨rfl, rfl, by decide⟩

/-- C6 (amended): the three JSON-backed tables load the empty default of the
correct shape when the file is absent or unparseable, without raising and
without rewriting the file (a repeated load yields the same empty default
because the parse failure simply repeats); the last-fired-date table loads
"no date" from an absent file but raises to the caller on unparseable
content. -/
theorem load_tables_recovery :
    (load_used_songs .absent = ([], .absent) ∧
      load_used_songs .invalid = ([], .invalid) ∧
      load_used_songs (load_used_songs .invalid).2 = ([], .invalid)) ∧
    (load_channel_config .absent = ([], .absent) ∧
      load_channel_config .invalid = ([], .invalid) ∧
      load_channel_config (load_channel_config .invalid).2 = ([], .invalid)) ∧
    (load_scheduled_songs .absent = ([], .absent) ∧
      load_scheduled_songs .invalid = ([], .invalid) ∧
      load_scheduled_songs (load_scheduled_songs .invalid).2 = ([], .invalid)) ∧
    (load_last_run .absent = Except.ok none ∧
      load_last_run .invalid = Except.error "ValueError" ∧
      ∀ d : Nat, load_last_run (.valid d) = Except.ok (some d)) :=
  ⟨⟨rfl, rfl, rfl⟩, ⟨rfl, rfl, rfl⟩, ⟨rfl, rfl, rfl⟩, rfl, rfl, fun _ => rfl⟩

/-! ## Claim C10 -/

theorem lookupKey_nil (k : Nat) : lookupKey [] k = none := rfl

theorem lookupKey_cons (p : Nat × String) (m : List (Nat × String)) (k : Nat) :
    lookupKey (p :: m) k =
      if (p.1 == k) = true then some p.2 else lookupKey m k := by
  by_cases hp : (p.1 == k) = true
  · rw [if_pos hp]
    unfold lookupKey
    rw [@List.find?_cons_of_pos _ (fun q => q.1 == k) p m hp]
    rfl
  · rw [if_neg hp]
    unfold lookupKey
    rw [@List.find?_cons_of_neg _ (fun q => q.1 == k) p m hp]

theorem findKey_cons (p : Nat × String) (m : List (Nat × String)) (k : Nat) :
    (p :: m).find? (fun q => q.1 == k) =
      if (p.1 == k) = true then some p else m.find? (fun q => q.1 == k) := by
  by_cases hp : (p.1 == k) = true
  · rw [if_pos hp]
    exact @List.find?_cons_of_pos _ (fun q => q.1 == k) p m hp
  · rw [if_neg hp]
    exact @List.find?_cons_of_neg _ (fun q => q.1 == k) p m hp

theorem lookupKey_map_update_self (k : Nat) (v : String) :
    ∀ m : List (Nat × String),
      (m.find? (fun p => p.1 == k)).isSome = true →
      lookupKey (m.map (fun p => if p.1 == k then (k, v) else p)) k = some v := by
  intro m
  induction m with
  | nil => intro h; simp at h
  | cons p m ih =>
      intro h
      by_cases hp : (p.1 == k) = true
      · rw [List.map_cons, if_pos hp, lookupKey_cons]
        simp
      · rw [findKey_cons, if_neg hp] at h
        rw [List.map_cons, if_neg hp, lookupKey_cons, if_neg hp]
        exact ih h

theorem lookupKey_map_update_other (k k' : Nat) (v : String) (hne : k' ≠ k) :
    ∀ m : List (Nat × String),
      lookupKey (m.map (fun p => if p.1 == k then (k, v) else p)) k' =
        lookupKey m k' := by
  have hkk' : ¬((k, v).1 == k') = true := by
    simp only [beq_iff_eq]
    exact Ne.symm hne
  intro m
  induction m with
  | nil => rfl
  | cons p m ih =>
      by_cases hp : (p.1 == k) = true
      · have hk : p.1 = k := by simpa using hp
        have hpk' : ¬(p.1 == k') = true := by
          simp only [beq_iff_eq, hk]
          exact Ne.symm hne
        rw [List.map_cons, if_pos hp, lookupKey_cons, if_neg hkk',
          lookupKey_cons, if_neg hpk']
        exact ih
      · rw [List.map_cons, if_neg hp, lookupKey_cons, lookupKey_cons]
        by_cases hpk' : (p.1 == k') = true
        · rw [if_pos hpk', if_pos hpk']
        · rw [if_neg hpk', if_neg hpk']
          exact ih

theorem lookupKey_append_single_self (k : Nat) (v : String) :
    ∀ m : List (Nat × String),
      m.find? (fun p => p.1 == k) = none →
      lookupKey (m ++ [(k, v)]) k = some v := by
  intro m
  induction m with
  | nil =>
      intro _
      rw [List.nil_append, lookupKey_cons]
      simp
  | cons p m ih =>
      intro h
      rw [findKey_cons] at h
      by_cases hp : (p.1 == k) = true
      · rw [if_pos hp] at h
        cases h
      · rw [if_neg hp] at h
        rw [List.cons_append, lookupKey_cons, if_neg hp]
        exact ih h

theorem lookupKey_append_single_other (k k' : Nat) (v : String)
    (hne : k' ≠ k) :
    ∀ m : List (Nat × String),
      lookupKey (m ++ [(k, v)]) k' = lookupKey m k' := by
  have hkk' : ¬((k, v).1 == k') = true := by
    simp only [beq_iff_eq]
    exact Ne.symm hne
  intro m
  induction m with
  | nil =>
      rw [List.nil_append, lookupKey_cons, if_neg hkk']
  | cons p m ih =>
      rw [List.cons_append, lookupKey_cons, lookupKey_cons]
      by_cases hpk' : (p.1 == k') = true
      · rw [if_pos hpk', if_pos hpk']
      · rw [if_neg hpk', if_neg hpk']
        exact ih

theorem lookupKey_dictSet_self (m : List (Nat × String)) (k : Nat)
    (v : String) :
    lookupKey (dictSet m k v) k = some v := by
  unfold dictSet
  by_cases hf : (m.find? (fun p => p.1 == k)).isSome = true
  · rw [if_pos hf]
    exact lookupKey_map_update_self k v m hf
  · rw [if_neg hf]
    exact lookupKey_append_single_self k v m (Option.not_isSome_iff_eq_none.1 hf)

theorem lookupKey_dictSet_other (m : List (Nat × String)) (k k' : Nat)
    (v : String) (hne : k' ≠ k) :
    lookupKey (dictSet m k v) k' = lookupKey m k' := by
  unfold dictSet
  by_cases hf : (m.find? (fun p => p.1 == k)).isSome = true
  · rw [if_pos hf]
    exact lookupKey_map_update_other k k' v hne m
  · rw [if_neg hf]
    exact lookupKey_append_single_other k k' v hne m

/-- C10 counterexample: for the url "/track/abc/track/def?x" the command
stores "abc" — Python's `split("/track/")[1]` stops at the NEXT occurrence
of "/track/" — while the substring between the first "/track/" and the next
"?" is "abc/track/def", so the claim's description of the stored id fails. -/
theorem schedule_song_counterexample :
    url_has_track "/track/abc/track/def?x".toList = true ∧
    schedule_song true (some 5) "/track/abc/track/def?x".toList [] =
      (CmdResult.scheduled, [(5, "abc")]) ∧
    String.mk (claimed_track_id "/track/abc/track/def?x".toList) =
      "abc/track/def" ∧
    ("abc" : String) ≠ "abc/track/def" := by
  refine ⟨?_, ?_, ?_, ?_⟩ <;> decide

/-- C10 (amended: the stored id is the first "/track/"-delimited segment
after the first "/track/" — i.e. up to the next "/track/" occurrence or the
end of the url — truncated at its first "?", exactly
`url.split("/track/")[1].split("?")[0]`): an authorized call with a
well-formed date and a url containing "/track/" succeeds, stores that
segment under the date with no catalog validation and silently overwrites
any entry already stored for that date, and leaves every other date's entry
unchanged. -/
theorem schedule_song_stores_extracted_id (dateVal : Nat) (url : List Char)
    (sched : List (Nat × String)) (hurl : url_has_track url = true) :
    (schedule_song true (some dateVal) url sched).1 = CmdResult.scheduled ∧
    lookupKey (schedule_song true (some dateVal) url sched).2 dateVal =
      some (String.mk (extract_track_id url)) ∧
    (∀ k, k ≠ dateVal →
      lookupKey (schedule_song true (some dateVal) url sched).2 k =
        lookupKey sched k) := by
  have heq : schedule_song true (some dateVal) url sched =
      (CmdResult.scheduled,
        dictSet sched dateVal (String.mk (extract_track_id url))) := by
    simp [schedule_song, hurl]
  rw [heq]
  exact ⟨rfl, lookupKey_dictSet_self sched dateVal _,
    fun k hk => lookupKey_dictSet_other sched dateVal k _ hk⟩

/-- Witness for the amended C10: scheduling "/track/x?a" for day 5 over a
map that already holds an entry for day 5 overwrites it with "x" and leaves
day 9's entry alone. -/
theorem schedule_song_stores_extracted_id_witness :
    url_has_track "/track/x?a".toList = true ∧
    ((schedule_song true (some 5) "/track/x?a".toList
        [(5, "old"), (9, "keep")]).1 = CmdResult.scheduled ∧
      lookupKey (schedule_song true (some 5) "/track/x?a".toList
        [(5, "old"), (9, "keep")]).2 5 =
        some (String.mk (extract_track_id "/track/x?a".toList)) ∧
      (∀ k, k ≠ 5 →
        lookupKey (schedule_song true (some 5) "/track/x?a".toList
          [(5, "old"), (9, "keep")]).2 k =
          lookupKey [(5, "old"), (9, "keep")] k)) :=
  ⟨by decide,
    schedule_song_stores_extracted_id 5 "/track/x?a".toList
      [(5, "old"), (9, "keep")] (by decide)⟩
